import Mathlib

/-!
Shallow embedding of the `waiter` Go package: a single-worker rate-limiting
call scheduler.  Time is modelled by an explicit integer clock (nanoseconds,
mirroring `time.Duration`/`time.Time`), advanced only by the worker's
`time.Sleep` inside `wait`.  The buffered channel `fnCh` is modelled as a
FIFO list together with its capacity; callbacks are identified by abstract
natural-number ids and take zero model time to run.

The repository contains two revisions of `waiter.go`.  They share `run`,
`wait`, `Call`, `Wait` and `Len`; they differ in `New` (the first revision
leaves `last` at the zero time, the second seeds it with `time.Now()`) and
in `Close` (the first returns `bool`, the second returns `error`).  Both
variants are embedded below.
-/

namespace WaiterPkg

/-- Callbacks (`func()`) are identified by abstract ids; their bodies are
external user code and irrelevant to the scheduler. -/
abbrev Cb := Nat

/-- The only error value of the package, `ErrWaiterClosed`. -/
inductive Err where
  | waiterClosed
deriving DecidableEq, Repr

/-- Explicit model of the wall clock read by `time.Now()`, in nanoseconds. -/
structure Clock where
  now : Int
deriving DecidableEq, Repr

/-- Model of `time.Sleep d`: a non-positive duration returns immediately,
otherwise the clock advances by `d`. -/
def Clock.sleepFor (c : Clock) (d : Int) : Clock :=
  ⟨c.now + max d 0⟩

/-- The `Waiter` struct: `delay` and `last` as in the source; `queue` and
`capacity` model the buffered channel `fnCh` (contents in FIFO order and
`queueLen`); `closed` models the atomic flag. -/
structure Waiter where
  delay : Int
  last : Option Int
  queue : List Cb
  capacity : Nat
  closed : Bool
deriving DecidableEq, Repr

/-- The first revision's `New` (src/waiter.go lines 45-52): `last` is left at
the zero `time.Time`, modelled as `none`. -/
def New (delay : Int) (queueLen : Nat) : Waiter :=
  { delay := delay, last := none, queue := [], capacity := queueLen, closed := false }

/-- The second revision's `New` (src/waiter.go lines 157-165): `last` is
seeded with `time.Now()`, the creation instant. -/
def NewSeeded (delay : Int) (queueLen : Nat) (creation : Int) : Waiter :=
  { delay := delay, last := some creation, queue := [], capacity := queueLen, closed := false }

/-- The method `wait` (identical in both revisions): read `now`; if `last` is
the zero time, record `now` and return; otherwise sleep `delay - elapsed`
when `elapsed < delay`, then record a re-read `time.Now()` into `last`.
Returns the new `last` and the clock after any sleep. -/
def wait (delay : Int) (last : Option Int) (c : Clock) : Option Int × Clock :=
  let now := c.now
  match last with
  | none => (some now, c)
  | some l =>
    let elapsed := now - l
    let c2 := if elapsed < delay then c.sleepFor (delay - elapsed) else c
    (some c2.now, c2)

/-- The amount the worker sleeps inside one `wait` invocation: how far the
clock advances across it. -/
def waitSleepAmount (delay : Int) (last : Option Int) (c : Clock) : Int :=
  (wait delay last c).2.now - c.now

/-- Result of the worker loop `run` consuming the listed channel contents:
the executed callbacks paired with their start times, the callbacks still
buffered when the loop exited, and whether the loop exited via `break`
(`stopped = false` means the loop is blocked in the channel receive, since
the channel is never closed). -/
structure RunResult where
  execs : List (Cb × Int)
  remaining : List Cb
  stopped : Bool
deriving DecidableEq, Repr

/-- The worker loop `run`: `for fn := range w.fnCh { if closed { break };
w.wait(); fn() }`.  The `closed` flag is a parameter: `false` models a run
during which nobody closes, `true` a run after the flag was set.  A callback
executes at the clock value reached when `wait` returns, and takes zero
model time. -/
def runLoop (delay : Int) (closed : Bool) : Option Int → Clock → List Cb → RunResult
  | _, _, [] => ⟨[], [], false⟩
  | last, c, fn :: rest =>
    if closed then ⟨[], rest, true⟩
    else
      let p := wait delay last c
      let r := runLoop delay closed p.1 p.2 rest
      ⟨(fn, p.2.now) :: r.execs, r.remaining, r.stopped⟩

/-- Outcome of `Call` (identical in both revisions): if the closed flag is
set it returns `ErrWaiterClosed` without enqueuing; otherwise the channel
send `w.fnCh <- fn` either buffers `fn` (a free slot exists) or blocks the
submitting goroutine (buffer full). -/
inductive CallResult where
  | rejected
  | enqueued (w : Waiter)
  | blocked
deriving DecidableEq, Repr

/-- The method `Call`. -/
def CallAttempt (w : Waiter) (fn : Cb) : CallResult :=
  if w.closed then .rejected
  else if w.queue.length < w.capacity then
    .enqueued { w with queue := w.queue ++ [fn] }
  else .blocked

/-- The error value `Call` returns for each outcome: `ErrWaiterClosed` when
rejected, `nil` otherwise. -/
def errOf : CallResult → Option Err
  | .rejected => some .waiterClosed
  | _ => none

/-- The waiter state after a `Call`: changed only when the enqueue happened. -/
def applyCall (w : Waiter) (fn : Cb) : Waiter :=
  match CallAttempt w fn with
  | .enqueued w2 => w2
  | _ => w

/-- Outcome of `Wait f`: it submits (via `Call`) a wrapper that runs `f` and
then signals `done`; if `Call` fails the same error is sent to `done` and
returned, and the wrapper was never enqueued. -/
inductive WaitResult where
  | rejected
  | enqueuedWrapped (w : Waiter)
  | blockedSubmit
deriving DecidableEq, Repr

/-- The method `Wait`, modelled through the `Call` it performs; the wrapper
around `f` carries the id of `f`. -/
def WaitAttempt (w : Waiter) (f : Cb) : WaitResult :=
  match CallAttempt w f with
  | .rejected => .rejected
  | .enqueued w2 => .enqueuedWrapped w2
  | .blocked => .blockedSubmit

/-- The error `Wait` returns for each outcome. -/
def waitErrOf : WaitResult → Option Err
  | .rejected => some .waiterClosed
  | _ => none

/-- The first revision's `Close` (src/waiter.go lines 104-112): a
`CompareAndSwap(false, true)` on the closed flag, returning whether this
invocation performed the transition. -/
def Close (w : Waiter) : Bool × Waiter :=
  if w.closed then (false, w) else (true, { w with closed := true })

/-- The second revision's `Close` (src/waiter.go lines 235-242): the same
compare-and-swap, returning `nil` on the closing invocation and
`ErrWaiterClosed` otherwise. -/
def CloseErr (w : Waiter) : Option Err × Waiter :=
  if w.closed then (some .waiterClosed, w) else (none, { w with closed := true })

/-- Results of `n` successive `Close` invocations (any interleaving of
concurrent `Close` calls serialises through the atomic compare-and-swap,
so a sequence models every interleaving). -/
def closeIter (w : Waiter) : Nat → List Bool × Waiter
  | 0 => ([], w)
  | n + 1 =>
    let p := Close w
    let q := closeIter p.2 n
    (p.1 :: q.1, q.2)

/-- Results of `n` successive error-returning `Close` invocations. -/
def closeIterErr (w : Waiter) : Nat → List (Option Err) × Waiter
  | 0 => ([], w)
  | n + 1 =>
    let p := CloseErr w
    let q := closeIterErr p.2 n
    (p.1 :: q.1, q.2)

/-- The function `RateLimit` (src/waiter.go lines 177-179):
`delay / time.Duration(quantity)`, Go's truncated (toward-zero) `int64`
division, modelled by `Int.tdiv`.  It reads and writes no state. -/
def RateLimit (quantity : Int) (delay : Int) : Int :=
  Int.tdiv delay quantity

/-- The body of `RateLimit` with Go's run-time behaviour of the division
made explicit: an integer division by zero panics, modelled as `none`. -/
def RateLimitChecked (quantity : Int) (delay : Int) : Option Int :=
  if quantity = 0 then none else some (Int.tdiv delay quantity)

/-- One channel receive by the worker, freeing one buffered slot. -/
def dequeueOne (w : Waiter) : Option Cb × Waiter :=
  match w.queue with
  | [] => (none, w)
  | fn :: rest => (some fn, { w with queue := rest })

end WaiterPkg

namespace WaiterPkg

/-- Both branches of `wait` store into `last` exactly the clock value that
`wait` leaves behind: `w.last = time.Now()` re-read after any sleep. -/
theorem wait_last_eq_clock (delay : Int) (last : Option Int) (c : Clock) :
    (wait delay last c).1 = some (wait delay last c).2.now := by
  cases last <;> simp [wait]

/-- Unfolding lemma for the clock value after a sleep. -/
theorem Clock.sleepFor_now (c : Clock) (d : Int) :
    (c.sleepFor d).now = c.now + max d 0 := rfl

/-- The clock never moves backwards across `wait`. -/
theorem wait_clock_ge (delay : Int) (last : Option Int) (c : Clock) :
    c.now ≤ (wait delay last c).2.now := by
  cases last with
  | none => simp [wait]
  | some l =>
    show c.now ≤ (if c.now - l < delay then c.sleepFor (delay - (c.now - l)) else c).now
    split
    · rw [Clock.sleepFor_now]
      omega
    · omega

/-- After `wait` with a recorded previous start `l`, the clock is at least
`l + delay`: either the sleep pushed it to exactly `l + delay`, or at least
`delay` had already elapsed. -/
theorem wait_some_spacing (delay l : Int) (c : Clock) :
    delay ≤ (wait delay (some l) c).2.now - l := by
  show delay ≤ (if c.now - l < delay then c.sleepFor (delay - (c.now - l)) else c).now - l
  split
  next h =>
    rw [Clock.sleepFor_now]
    omega
  next h => omega

end WaiterPkg

namespace WaiterPkg

/-- If the loop executes anything from a recorded last start `l`, the first
execution starts no earlier than `l + delay`. -/
theorem runLoop_head_start (delay l : Int) (c : Clock) (fns : List Cb) :
    ∀ t ∈ ((runLoop delay false (some l) c fns).execs.map Prod.snd).head?,
      delay ≤ t - l := by
  cases fns with
  | nil =>
    intro t ht
    simp [runLoop] at ht
  | cons fn rest =>
    intro t ht
    have hh : ((runLoop delay false (some l) c (fn :: rest)).execs.map Prod.snd).head?
        = some ((wait delay (some l) c).2.now) := by
      simp [runLoop]
    rw [hh, Option.mem_some_iff] at ht
    subst ht
    exact wait_some_spacing delay l c

/-- If the loop executes anything, the first execution does not start before
the clock value the loop was entered with. -/
theorem runLoop_head_ge_clock (delay : Int) (last : Option Int) (c : Clock) (fns : List Cb) :
    ∀ t ∈ ((runLoop delay false last c fns).execs.map Prod.snd).head?,
      c.now ≤ t := by
  cases fns with
  | nil =>
    intro t ht
    simp [runLoop] at ht
  | cons fn rest =>
    intro t ht
    have hh : ((runLoop delay false last c (fn :: rest)).execs.map Prod.snd).head?
        = some ((wait delay last c).2.now) := by
      simp [runLoop]
    rw [hh, Option.mem_some_iff] at ht
    subst ht
    exact wait_clock_ge delay last c

/-- The open worker executes exactly the channel contents, in FIFO order. -/
theorem runLoop_fifo (delay : Int) (fns : List Cb) :
    ∀ (last : Option Int) (c : Clock),
      (runLoop delay false last c fns).execs.map Prod.fst = fns := by
  induction fns with
  | nil => intro last c; simp [runLoop]
  | cons fn rest ih =>
    intro last c
    simp [runLoop, ih]

/-- Unfolding of the open worker loop on a nonempty queue. -/
theorem runLoop_cons_execs (delay : Int) (last : Option Int) (c : Clock)
    (fn : Cb) (rest : List Cb) :
    (runLoop delay false last c (fn :: rest)).execs.map Prod.snd
      = (wait delay last c).2.now ::
        ((runLoop delay false (wait delay last c).1
          (wait delay last c).2 rest).execs.map Prod.snd) := by
  simp [runLoop]

/-- Consecutive execution start times are spaced by at least `delay`. -/
theorem runLoop_chain_spacing (delay : Int) (fns : List Cb) :
    ∀ (last : Option Int) (c : Clock),
      List.Chain' (fun t1 t2 => delay ≤ t2 - t1)
        ((runLoop delay false last c fns).execs.map Prod.snd) := by
  induction fns with
  | nil => intro last c; simp [runLoop]
  | cons fn rest ih =>
    intro last c
    rw [runLoop_cons_execs, List.chain'_cons']
    refine ⟨?_, ih (wait delay last c).1 (wait delay last c).2⟩
    intro t ht
    rw [wait_last_eq_clock] at ht
    exact runLoop_head_start delay ((wait delay last c).2.now) (wait delay last c).2 rest t ht

/-- Execution start times are monotone: the worker is a single sequential
loop, so each execution begins only after the previous one. -/
theorem runLoop_chain_mono (delay : Int) (fns : List Cb) :
    ∀ (last : Option Int) (c : Clock),
      List.Chain' (fun t1 t2 => t1 ≤ t2)
        ((runLoop delay false last c fns).execs.map Prod.snd) := by
  induction fns with
  | nil => intro last c; simp [runLoop]
  | cons fn rest ih =>
    intro last c
    rw [runLoop_cons_execs, List.chain'_cons']
    refine ⟨?_, ih (wait delay last c).1 (wait delay last c).2⟩
    intro t ht
    exact runLoop_head_ge_clock delay (wait delay last c).1 (wait delay last c).2 rest t ht

/-- Once the closed flag is set, the worker loop executes no callback. -/
theorem runLoop_closed_execs (delay : Int) (last : Option Int) (c : Clock) (q : List Cb) :
    (runLoop delay true last c q).execs = [] := by
  cases q <;> simp [runLoop]

/-- A `Call` never changes the closed flag. -/
theorem applyCall_closed (w : Waiter) (fn : Cb) :
    (applyCall w fn).closed = w.closed := by
  by_cases h1 : w.closed
  · simp [applyCall, CallAttempt, h1]
  · by_cases h2 : w.queue.length < w.capacity <;>
      simp [applyCall, CallAttempt, h1, h2]

/-- Repeated `Close` on an already-closed waiter: every invocation reports
already-closed and the state never changes. -/
theorem closeIter_closed (n : Nat) : ∀ (w : Waiter), w.closed = true →
    closeIter w n = (List.replicate n false, w) := by
  induction n with
  | zero => intro w h; simp [closeIter]
  | succ n ih =>
    intro w h
    simp [closeIter, Close, h, ih w h, List.replicate_succ]

/-- Repeated error-returning `Close` on an already-closed waiter. -/
theorem closeIterErr_closed (n : Nat) : ∀ (w : Waiter), w.closed = true →
    closeIterErr w n = (List.replicate n (some Err.waiterClosed), w) := by
  induction n with
  | zero => intro w h; simp [closeIterErr]
  | succ n ih =>
    intro w h
    simp [closeIterErr, CloseErr, h, ih w h, List.replicate_succ]

end WaiterPkg

namespace WaiterPkg

/-- C1: for every pair of consecutive callback executions performed by the
worker, the start time of execution `i+1` minus the start time of execution
`i` is at least the scheduler's fixed delay, with time modelled as an
explicit clock advanced by the worker's sleep in `wait`. -/
theorem consecutive_executions_spaced_by_delay (delay : Int) (last : Option Int)
    (c : Clock) (fns : List Cb) :
    List.Chain' (fun t1 t2 => delay ≤ t2 - t1)
      ((runLoop delay false last c fns).execs.map Prod.snd) :=
  runLoop_chain_spacing delay fns last c

/-- C2: the single sequential worker executes every enqueued callback in
exactly FIFO enqueue order, and execution is serialised: each execution
starts no earlier than the previous one (callbacks run one at a time on the
one worker, never concurrently). -/
theorem fifo_order_single_worker (delay : Int) (last : Option Int)
    (c : Clock) (fns : List Cb) :
    (runLoop delay false last c fns).execs.map Prod.fst = fns ∧
    List.Chain' (fun t1 t2 => t1 ≤ t2)
      ((runLoop delay false last c fns).execs.map Prod.snd) :=
  ⟨runLoop_fifo delay fns last c, runLoop_chain_mono delay fns last c⟩

/-- C3 counterexample: under the `New` of src/waiter.go lines 157-165, which
seeds `last` with `time.Now()`, a waiter created at time 0 with delay 100
whose first callback is dequeued at time 0 sleeps the full delay of 100 and
executes the first callback only at time 100 — it does not run immediately,
refuting the claim as stated for the cited constructor. -/
theorem first_call_not_immediate_under_seeded_new :
    (runLoop (NewSeeded 100 10 0).delay false (NewSeeded 100 10 0).last ⟨0⟩ [0]).execs
      = [(0, 100)] ∧
    waitSleepAmount (NewSeeded 100 10 0).delay (NewSeeded 100 10 0).last ⟨0⟩ = 100 ∧
    (100 : Int) ≠ 0 :=
  ⟨by decide, by decide, by decide⟩

/-- C3 amended: under the `New` of src/waiter.go lines 45-52, which leaves
`last` at the zero time, the first callback of a freshly created scheduler
runs immediately — the worker sleeps 0 in `wait` and the first execution
starts at the very clock value at which it was dequeued — while all later
executions are spaced by at least the delay. -/
theorem first_call_immediate_under_unseeded_new (delay : Int) (queueLen : Nat)
    (c : Clock) (fn : Cb) (rest : List Cb) :
    ((runLoop (New delay queueLen).delay false (New delay queueLen).last c
        (fn :: rest)).execs.map Prod.snd).head? = some c.now ∧
    waitSleepAmount (New delay queueLen).delay (New delay queueLen).last c = 0 ∧
    List.Chain' (fun t1 t2 => delay ≤ t2 - t1)
      ((runLoop (New delay queueLen).delay false (New delay queueLen).last c
        (fn :: rest)).execs.map Prod.snd) := by
  refine ⟨?_, ?_, runLoop_chain_spacing delay (fn :: rest) none c⟩
  · rw [runLoop_cons_execs]
    rfl
  · simp [waitSleepAmount, wait, New]

/-- C10: once the closed flag is set, the worker loop discards the single
callback it dequeues without executing it and exits via `break`; the rest
of the backlog stays buffered, never drained and never executed.  With an
empty queue it executes nothing and stays blocked in the channel receive. -/
theorem closed_worker_discards_one_and_stops (delay : Int) (last : Option Int)
    (c : Clock) (fn : Cb) (rest : List Cb) :
    runLoop delay true last c (fn :: rest) = ⟨[], rest, true⟩ ∧
    runLoop delay true last c [] = ⟨[], [], false⟩ :=
  ⟨rfl, rfl⟩

end WaiterPkg

namespace WaiterPkg

/-- C4: after a successful `Close` the closed flag is `true`; every
subsequent `Call` returns `ErrWaiterClosed` without enqueuing anything and
leaves the state unchanged, every subsequent `Wait` returns the same
`ErrWaiterClosed` with its callback never enqueued, and the worker (which
observes the set flag) never invokes any callback. -/
theorem closed_rejects_submissions (w : Waiter) (fn f : Cb) (l : Option Int)
    (c : Clock) (h : w.closed = true) :
    CallAttempt w fn = .rejected ∧
    errOf (CallAttempt w fn) = some .waiterClosed ∧
    applyCall w fn = w ∧
    WaitAttempt w f = .rejected ∧
    waitErrOf (WaitAttempt w f) = some .waiterClosed ∧
    (runLoop w.delay true l c w.queue).execs = [] := by
  have hc : CallAttempt w fn = .rejected := by simp [CallAttempt, h]
  have hcf : CallAttempt w f = .rejected := by simp [CallAttempt, h]
  refine ⟨hc, by rw [hc]; rfl, ?_, ?_, ?_, runLoop_closed_execs w.delay l c w.queue⟩
  · simp [applyCall, hc]
  · simp [WaitAttempt, hcf]
  · simp [WaitAttempt, hcf, waitErrOf]

/-- Witness for C4: instantiation on a concrete closed waiter. -/
theorem closed_rejects_submissions_witness :
    CallAttempt ⟨5, none, [1, 2], 4, true⟩ 7 = .rejected ∧
    errOf (CallAttempt ⟨5, none, [1, 2], 4, true⟩ 7) = some .waiterClosed ∧
    applyCall ⟨5, none, [1, 2], 4, true⟩ 7 = ⟨5, none, [1, 2], 4, true⟩ ∧
    WaitAttempt ⟨5, none, [1, 2], 4, true⟩ 9 = .rejected ∧
    waitErrOf (WaitAttempt ⟨5, none, [1, 2], 4, true⟩ 9) = some .waiterClosed ∧
    (runLoop (5 : Int) true none ⟨0⟩ [1, 2]).execs = [] :=
  closed_rejects_submissions ⟨5, none, [1, 2], 4, true⟩ 7 9 none ⟨0⟩ rfl

/-- C5: starting from an open waiter, among any number of `Close`
invocations exactly the first reports that it performed the close (`true`
for the bool-returning revision, `nil` for the error-returning one); every
later invocation reports already-closed (`false` / `ErrWaiterClosed`), and
the closed flag stays `true` from then on, also across further `Call`s. -/
theorem close_idempotent_contract (w : Waiter) (n : Nat) (h : w.closed = false) :
    (closeIter w (n + 1)).1 = true :: List.replicate n false ∧
    (closeIter w (n + 1)).2.closed = true ∧
    (closeIterErr w (n + 1)).1 = none :: List.replicate n (some Err.waiterClosed) ∧
    (closeIterErr w (n + 1)).2.closed = true ∧
    (∀ fn, (applyCall (closeIter w (n + 1)).2 fn).closed = true) := by
  have hcl : Close w = (true, { w with closed := true }) := by simp [Close, h]
  have hcle : CloseErr w = (none, { w with closed := true }) := by simp [CloseErr, h]
  have h2 : closeIter w (n + 1)
      = (true :: List.replicate n false, { w with closed := true }) := by
    simp [closeIter, hcl, closeIter_closed n { w with closed := true } rfl]
  have h3 : closeIterErr w (n + 1)
      = (none :: List.replicate n (some Err.waiterClosed), { w with closed := true }) := by
    simp [closeIterErr, hcle, closeIterErr_closed n { w with closed := true } rfl]
  refine ⟨by rw [h2], by rw [h2], by rw [h3], by rw [h3], ?_⟩
  intro fn
  rw [h2, applyCall_closed]

/-- Witness for C5: three successive closes of a concrete open waiter. -/
theorem close_idempotent_contract_witness :
    (closeIter ⟨5, none, [], 4, false⟩ 3).1 = true :: List.replicate 2 false ∧
    (closeIterErr ⟨5, none, [], 4, false⟩ 3).1
      = none :: List.replicate 2 (some Err.waiterClosed) ∧
    (applyCall (closeIter ⟨5, none, [], 4, false⟩ 3).2 9).closed = true :=
  ⟨(close_idempotent_contract ⟨5, none, [], 4, false⟩ 2 rfl).1,
   (close_idempotent_contract ⟨5, none, [], 4, false⟩ 2 rfl).2.2.1,
   (close_idempotent_contract ⟨5, none, [], 4, false⟩ 2 rfl).2.2.2.2 9⟩

/-- C6: with a non-zero `last`, one `wait` step sleeps exactly
`delay - (now - last)` when `now - last < delay`, sleeps nothing when
`now - last >= delay`, and in both cases stores into `last` the clock value
re-read after any sleep. -/
theorem wait_delay_characterisation (delay l : Int) (last : Option Int)
    (c : Clock) (h : last = some l) :
    (c.now - l < delay → waitSleepAmount delay last c = delay - (c.now - l)) ∧
    (delay ≤ c.now - l → waitSleepAmount delay last c = 0) ∧
    (wait delay last c).1 = some ((wait delay last c).2.now) := by
  subst h
  refine ⟨?_, ?_, wait_last_eq_clock delay (some l) c⟩
  · intro hlt
    show (if c.now - l < delay then c.sleepFor (delay - (c.now - l)) else c).now - c.now
        = delay - (c.now - l)
    rw [if_pos hlt, Clock.sleepFor_now]
    omega
  · intro hge
    show (if c.now - l < delay then c.sleepFor (delay - (c.now - l)) else c).now - c.now = 0
    rw [if_neg (by omega)]
    omega

/-- Witness for C6: a clock at 30, a last start at 0 and a delay of 100
sleep exactly 70; with a delay of 20 the same step sleeps nothing. -/
theorem wait_delay_characterisation_witness :
    waitSleepAmount 100 (some 0) ⟨30⟩ = 100 - ((30 : Int) - 0) ∧
    waitSleepAmount 20 (some 0) ⟨30⟩ = 0 ∧
    (wait 100 (some 0) (⟨30⟩ : Clock)).1 = some ((wait 100 (some 0) (⟨30⟩ : Clock)).2.now) :=
  ⟨(wait_delay_characterisation 100 0 (some 0) ⟨30⟩ rfl).1 (by decide),
   (wait_delay_characterisation 20 0 (some 0) ⟨30⟩ rfl).2.1 (by decide),
   (wait_delay_characterisation 100 0 (some 0) ⟨30⟩ rfl).2.2⟩

end WaiterPkg

namespace WaiterPkg

/-- C7: for every positive quantity `q` and non-negative duration `d`,
`RateLimit q d` is exactly the integer (truncated) quotient of `d` by `q`,
characterised by `q * result <= d < q * result + q`; in particular
`RateLimit 100 (1 second)` is exactly 10 milliseconds.  `RateLimit` is a
pure function of its arguments: it touches no scheduler state. -/
theorem rateLimit_integer_division (q d : Int) (hq : 0 < q) (hd : 0 ≤ d) :
    RateLimit 100 1000000000 = 10000000 ∧
    q * RateLimit q d ≤ d ∧ d < q * RateLimit q d + q := by
  have htd : RateLimit q d = d / q := Int.tdiv_eq_ediv hd (le_of_lt hq)
  have h1 := Int.ediv_add_emod d q
  have h2 := Int.emod_nonneg d (ne_of_gt hq)
  have h3 := Int.emod_lt_of_pos d hq
  refine ⟨by decide, ?_, ?_⟩
  · rw [htd]
    linarith
  · rw [htd]
    linarith

/-- Witness for C7: the division bounds at quantity 7 and duration 30. -/
theorem rateLimit_integer_division_witness :
    RateLimit 100 1000000000 = 10000000 ∧
    7 * RateLimit 7 30 ≤ 30 ∧ (30 : Int) < 7 * RateLimit 7 30 + 7 :=
  rateLimit_integer_division 7 30 (by decide) (by decide)

/-- C8: the division in the body of `RateLimit` is defined only under the
precondition that the quantity is non-zero: at quantity 0 the
division-by-zero error branch is reached (a Go run-time panic, modelled as
`none`), and for every non-zero quantity the checked body agrees with
`RateLimit`. -/
theorem rateLimit_zero_quantity_fails (d : Int) :
    RateLimitChecked 0 d = none ∧
    ∀ q, q ≠ 0 → RateLimitChecked q d = some (RateLimit q d) := by
  refine ⟨by simp [RateLimitChecked], ?_⟩
  intro q hq
  simp [RateLimitChecked, RateLimit, hq]

/-- Witness for C8: quantity 0 hits the error branch at duration 10^9;
quantity 100 does not. -/
theorem rateLimit_zero_quantity_fails_witness :
    RateLimitChecked 0 1000000000 = none ∧
    RateLimitChecked 100 1000000000 = some (RateLimit 100 1000000000) :=
  ⟨(rateLimit_zero_quantity_fails 1000000000).1,
   (rateLimit_zero_quantity_fails 1000000000).2 100 (by decide)⟩

/-- C9: on an open waiter whose queue already holds `capacity` callbacks, a
further `Call` neither fails nor drops the callback: the channel send
blocks, and once the worker frees one slot by dequeuing, the same `Call`
enqueues the callback at the tail of the queue. -/
theorem backpressure_blocks_then_enqueues (w : Waiter) (fn : Cb)
    (hopen : w.closed = false) (hfull : w.queue.length = w.capacity)
    (hpos : 0 < w.capacity) :
    CallAttempt w fn = .blocked ∧
    CallAttempt w fn ≠ .rejected ∧
    CallAttempt (dequeueOne w).2 fn
      = .enqueued { (dequeueOne w).2 with queue := (dequeueOne w).2.queue ++ [fn] } := by
  have hb : CallAttempt w fn = .blocked := by
    simp [CallAttempt, hopen, hfull]
  refine ⟨hb, by rw [hb]; intro hcontra; exact CallResult.noConfusion hcontra, ?_⟩
  cases hq : w.queue with
  | nil =>
    exfalso
    rw [hq] at hfull
    simp at hfull
    omega
  | cons q0 qrest =>
    have hd : (dequeueOne w).2 = { w with queue := qrest } := by
      simp [dequeueOne, hq]
    have hlen : qrest.length < w.capacity := by
      rw [hq] at hfull
      simp at hfull
      omega
    rw [hd]
    simp [CallAttempt, hopen, hlen]

/-- Witness for C9: a full capacity-1 queue blocks a submission of callback
7; after the worker dequeues, the submission enqueues 7. -/
theorem backpressure_blocks_then_enqueues_witness :
    CallAttempt ⟨100, none, [5], 1, false⟩ 7 = .blocked ∧
    CallAttempt ⟨100, none, [5], 1, false⟩ 7 ≠ .rejected ∧
    CallAttempt (dequeueOne ⟨100, none, [5], 1, false⟩).2 7
      = .enqueued { (dequeueOne ⟨100, none, [5], 1, false⟩).2 with
          queue := (dequeueOne ⟨100, none, [5], 1, false⟩).2.queue ++ [7] } :=
  backpressure_blocks_then_enqueues ⟨100, none, [5], 1, false⟩ 7 rfl rfl (by decide)

end WaiterPkg
